import Mathlib

/-!
Shallow embedding of the black-hole visualization kernel
(`src/engine/physics.ts` and `src/engine/BlackHoleEngine.ts`).

JavaScript numbers are modelled as exact real numbers; the `Infinity`
sentinel that the kernel threads through its computations is modelled by
the extended type `XR` (a real number or `+∞`).  Every definition mirrors
the control flow of the corresponding TypeScript function.
-/

set_option maxHeartbeats 1000000

noncomputable section

namespace FrozenStars

/-- Base-10 logarithm, JS `Math.log10`. -/
def log10 (x : ℝ) : ℝ := Real.logb 10 x

/-- Extended value: a finite JS number or the `Infinity` sentinel. -/
inductive XR where
  | fin (x : ℝ) : XR
  | inf : XR

/-- JS `!isFinite` on the values this kernel produces. -/
def XR.isInf : XR → Bool
  | .fin _ => false
  | .inf => true

/-- The real value carried by a finite `XR` (0 for the sentinel). -/
def XR.val : XR → ℝ
  | .fin x => x
  | .inf => 0

/-- The value is finite and strictly positive. -/
def XR.finPos : XR → Prop
  | .fin x => 0 < x
  | .inf => False

/-- The value is finite and within `eps` of `y`. -/
def XR.within : XR → ℝ → ℝ → Prop
  | .fin x, y, eps => |x - y| ≤ eps
  | .inf, _, _ => False

/-- JS `<=` restricted to the values this kernel produces
(`x <= Infinity` is true, `Infinity <= x` is false for finite `x`). -/
def XR.le : XR → XR → Prop
  | _, .inf => True
  | .inf, .fin _ => False
  | .fin a, .fin b => a ≤ b

/-- `nToRadius` from physics.ts: `1 + 10^(-n)`. -/
def nToRadius (n : ℝ) : ℝ := 1 + (10 : ℝ) ^ (-n)

/-- `nToRadius` applied to a possibly-infinite closeness, as `getState`
does: JS evaluates `Math.pow(10, -Infinity) = 0`, giving radius 1. -/
def nToRadiusX : XR → XR
  | .fin n => .fin (nToRadius n)
  | .inf => .fin 1

/-- `radiusToN` from physics.ts. -/
def radiusToN (r rs : ℝ) : XR :=
  if r ≤ rs then .inf else .fin (-(log10 ((r - rs) / rs)))

/-- `fallingN` from physics.ts. -/
def fallingN (tau nStart tauMax : ℝ) : XR :=
  if tau ≤ 0 then .fin nStart
  else if tau ≥ tauMax then .inf
  else .fin (nStart - log10 (1 - tau / tauMax))

/-- `maxProperTime` from physics.ts: `sqrt(rStart³ / 1)`. -/
def maxProperTime (nStart : ℝ) : ℝ :=
  Real.sqrt (nToRadius nStart * nToRadius nStart * nToRadius nStart / 1)

/-- `coordinateTime` from physics.ts; the input closeness may be the
`Infinity` sentinel, which the source tests with `isFinite`. -/
def coordinateTime : XR → ℝ → XR
  | .inf, _ => .inf
  | .fin n, nStart => .fin ((10 : ℝ) ^ n - (10 : ℝ) ^ nStart)

/-- `stationaryProperTime` from physics.ts. -/
def stationaryProperTime : XR → ℝ → XR
  | .inf, _ => .inf
  | .fin t, nObserver => .fin (t * Real.sqrt (1 - 1 / nToRadius nObserver))

/-- `photonN` from physics.ts (outward photon). -/
def photonN (nEmit tEmit tCurrent : ℝ) : ℝ :=
  if tCurrent - tEmit ≤ 0 then nEmit
  else nEmit - (tCurrent - tEmit) * (1 / (Real.log 10 * (10 : ℝ) ^ max nEmit 0))

/-- `photonNInward` from physics.ts (inward photon). -/
def photonNInward (nEmit tEmit tCurrent : ℝ) : XR :=
  if tCurrent - tEmit ≤ 0 then .fin nEmit
  else if (10 : ℝ) ^ (-nEmit) - (tCurrent - tEmit) / Real.log 10 ≤ 0 then .inf
  else .fin (-(log10 ((10 : ℝ) ^ (-nEmit) - (tCurrent - tEmit) / Real.log 10)))

/-! ### Facts about the base-10 logarithm used throughout -/

theorem log10_pow10 (x : ℝ) : log10 ((10 : ℝ) ^ x) = x := by
  unfold log10
  exact Real.logb_rpow (by norm_num) (by norm_num)

theorem log10_one : log10 1 = 0 := by
  unfold log10; exact Real.logb_one

theorem log10_nonpos_iff {x : ℝ} (hx : 0 < x) : log10 x ≤ 0 ↔ x ≤ 1 := by
  unfold log10
  exact Real.logb_nonpos_iff (by norm_num) hx

theorem log10_nonneg {x : ℝ} (hx : 1 ≤ x) : 0 ≤ log10 x := by
  unfold log10
  exact Real.logb_nonneg (by norm_num) hx

theorem log10_le_log10 {x y : ℝ} (hx : 0 < x) (hxy : x ≤ y) :
    log10 x ≤ log10 y := by
  unfold log10
  exact Real.logb_le_logb_of_le (by norm_num) hx hxy

theorem log10_mul {x y : ℝ} (hx : x ≠ 0) (hy : y ≠ 0) :
    log10 (x * y) = log10 x + log10 y := by
  unfold log10; exact Real.logb_mul hx hy

theorem pow10_pos (x : ℝ) : 0 < (10 : ℝ) ^ x :=
  Real.rpow_pos_of_pos (by norm_num) x

/-- Rational bounds on `ln 10`, from `10 = 2³ · (5/4)` and the nine-digit
bounds on `ln 2`. -/
theorem log_ten_bounds : 2.2 < Real.log 10 ∧ Real.log 10 < 2.4 := by
  have h10 : (10 : ℝ) = 2 ^ 3 * (5 / 4) := by norm_num
  have hmul : Real.log 10 = 3 * Real.log 2 + Real.log (5 / 4) := by
    rw [h10, Real.log_mul (by norm_num) (by norm_num), Real.log_pow]
    push_cast
    ring
  have h54u : Real.log (5 / 4) ≤ 1 / 4 := by
    have := Real.log_le_sub_one_of_pos (x := 5 / 4) (by norm_num)
    linarith
  have h54l : (1 : ℝ) / 5 ≤ Real.log (5 / 4) := by
    have h := Real.log_le_sub_one_of_pos (x := 4 / 5) (by norm_num)
    have hinv : Real.log ((5 / 4 : ℝ)⁻¹) = -Real.log (5 / 4) := Real.log_inv _
    have : ((5 / 4 : ℝ)⁻¹) = 4 / 5 := by norm_num
    rw [this] at hinv
    linarith
  have hl := Real.log_two_gt_d9
  have hu := Real.log_two_lt_d9
  constructor <;> [nlinarith; nlinarith]

theorem log_ten_pos : 0 < Real.log 10 := by
  have := log_ten_bounds.1; linarith

/-! ### C2: the falling trajectory -/

/-- C2: `fallingN(τ, nStart, τ_max)` equals `nStart - log10(1 - τ/τ_max)`
on `[0, τ_max)`, equals `nStart` for `τ ≤ 0`, equals `+∞` at or beyond
`τ_max`, and is monotonically non-decreasing on `[0, τ_max)`. -/
theorem C2_fallingN_spec (tau nStart tM : ℝ) :
    (0 ≤ tau → tau < tM →
      fallingN tau nStart tM = XR.fin (nStart - log10 (1 - tau / tM))) ∧
    (tau ≤ 0 → fallingN tau nStart tM = XR.fin nStart) ∧
    (0 < tM → tM ≤ tau → fallingN tau nStart tM = XR.inf) ∧
    (∀ tau1 tau2 : ℝ, 0 ≤ tau1 → tau1 < tau2 → tau2 < tM →
      XR.le (fallingN tau1 nStart tM) (fallingN tau2 nStart tM)) := by
  refine ⟨?_, ?_, ?_, ?_⟩
  · intro h0 hM
    unfold fallingN
    rcases lt_or_eq_of_le h0 with hpos | hzero
    · rw [if_neg (by linarith), if_neg (by linarith)]
    · rw [if_pos (by linarith)]
      rw [← hzero]
      norm_num [log10_one]
  · intro h0
    unfold fallingN
    rw [if_pos h0]
  · intro hM htau
    unfold fallingN
    rw [if_neg (by linarith), if_pos (by linarith)]
  · intro tau1 tau2 h1 h12 h2M
    have htM : 0 < tM := by linarith
    have h2pos : 0 < tau2 := by linarith
    have hx2 : 0 < 1 - tau2 / tM := by
      have : tau2 / tM < 1 := (div_lt_one htM).mpr h2M
      linarith
    have hval2 : fallingN tau2 nStart tM
        = XR.fin (nStart - log10 (1 - tau2 / tM)) := by
      unfold fallingN
      rw [if_neg (by linarith), if_neg (by linarith)]
    rcases le_or_lt tau1 0 with h1z | h1pos
    · have hval1 : fallingN tau1 nStart tM = XR.fin nStart := by
        unfold fallingN; rw [if_pos h1z]
      rw [hval1, hval2]
      show nStart ≤ nStart - log10 (1 - tau2 / tM)
      have : log10 (1 - tau2 / tM) ≤ 0 :=
        (log10_nonpos_iff hx2).mpr (by
          have : 0 ≤ tau2 / tM := le_of_lt (div_pos h2pos htM)
          linarith)
      linarith
    · have hval1 : fallingN tau1 nStart tM
          = XR.fin (nStart - log10 (1 - tau1 / tM)) := by
        unfold fallingN
        rw [if_neg (by linarith), if_neg (by linarith)]
      rw [hval1, hval2]
      show nStart - log10 (1 - tau1 / tM) ≤ nStart - log10 (1 - tau2 / tM)
      have hdiv : tau1 / tM < tau2 / tM := by
        have := mul_lt_mul_of_pos_right h12 (inv_pos.mpr htM)
        simpa [div_eq_mul_inv] using this
      have : log10 (1 - tau2 / tM) ≤ log10 (1 - tau1 / tM) := by
        apply log10_le_log10 hx2
        linarith
      linarith

/-- Witness for C2 at a concrete input. -/
theorem C2_fallingN_spec_witness :
    ((-1 : ℝ) ≤ 0) ∧ fallingN (-1) 5 3 = XR.fin 5 :=
  ⟨by norm_num, (C2_fallingN_spec (-1) 5 3).2.1 (by norm_num)⟩

/-! ### C3 and C9: photon propagation -/

/-- C3: for `tCurrent > tEmit`, `photonNInward` computes
`remaining = 10^(-nEmit) - (tCurrent - tEmit)/ln10`, returns `+∞` when
`remaining ≤ 0` and `-log10(remaining)` otherwise; for
`tCurrent ≤ tEmit` it returns exactly `nEmit`. -/
theorem C3_photonNInward_spec (nEmit tEmit tCurrent : ℝ) :
    (tEmit < tCurrent →
      ((10 : ℝ) ^ (-nEmit) - (tCurrent - tEmit) / Real.log 10 ≤ 0 →
        photonNInward nEmit tEmit tCurrent = XR.inf) ∧
      (0 < (10 : ℝ) ^ (-nEmit) - (tCurrent - tEmit) / Real.log 10 →
        photonNInward nEmit tEmit tCurrent
          = XR.fin (-(log10 ((10 : ℝ) ^ (-nEmit)
              - (tCurrent - tEmit) / Real.log 10))))) ∧
    (tCurrent ≤ tEmit → photonNInward nEmit tEmit tCurrent = XR.fin nEmit) := by
  constructor
  · intro hlt
    constructor
    · intro hrem
      unfold photonNInward
      rw [if_neg (by linarith), if_pos hrem]
    · intro hrem
      unfold photonNInward
      rw [if_neg (by linarith), if_neg (by linarith)]
  · intro hle
    unfold photonNInward
    rw [if_pos (by linarith)]

/-- Witness for C3 at a concrete input. -/
theorem C3_photonNInward_spec_witness :
    ((0 : ℝ) ≤ 0) ∧ photonNInward (-1) 0 0 = XR.fin (-1) :=
  ⟨le_rfl, (C3_photonNInward_spec (-1) 0 0).2 le_rfl⟩

/-- C9: for `tCurrent > tEmit`, the outbound photon position is
`nEmit - (tCurrent - tEmit) / (ln10 · 10^max(nEmit,0))`, and for
`tCurrent ≤ tEmit` it is exactly `nEmit`. -/
theorem C9_photonN_spec (nEmit tEmit tCurrent : ℝ) :
    (tEmit < tCurrent →
      photonN nEmit tEmit tCurrent
        = nEmit - (tCurrent - tEmit) / (Real.log 10 * (10 : ℝ) ^ max nEmit 0)) ∧
    (tCurrent ≤ tEmit → photonN nEmit tEmit tCurrent = nEmit) := by
  constructor
  · intro hlt
    unfold photonN
    rw [if_neg (by linarith), mul_one_div]
  · intro hle
    unfold photonN
    rw [if_pos (by linarith)]

/-- Witness for C9 at a concrete input. -/
theorem C9_photonN_spec_witness :
    ((0 : ℝ) < 1) ∧ photonN 2 0 1 = 2 - (1 - 0) / (Real.log 10 * (10 : ℝ) ^ max (2 : ℝ) 0) :=
  ⟨by norm_num, (C9_photonN_spec 2 0 1).1 (by norm_num)⟩

/-! ### C4: coordinate round trip -/

/-- C4: for finite `n` in `[-5, 30]`, the round trip
`radiusToN(nToRadius(n), 1)` returns `n` within `1e-9` (in fact exactly,
since the embedding computes with exact reals). -/
theorem C4_roundtrip (n : ℝ) (h1 : -5 ≤ n) (h2 : n ≤ 30) :
    XR.within (radiusToN (nToRadius n) 1) n 1e-9 := by
  have hpow : 0 < (10 : ℝ) ^ (-n) := pow10_pos (-n)
  have hr : ¬ nToRadius n ≤ 1 := by
    unfold nToRadius; linarith
  unfold radiusToN
  rw [if_neg hr]
  show |(-(log10 ((nToRadius n - 1) / 1))) - n| ≤ 1e-9
  have : (nToRadius n - 1) / 1 = (10 : ℝ) ^ (-n) := by
    unfold nToRadius; ring
  rw [this, log10_pow10]
  norm_num

/-- Witness for C4 at a concrete input. -/
theorem C4_roundtrip_witness :
    ((-5 : ℝ) ≤ 3) ∧ (3 : ℝ) ≤ 30 ∧ XR.within (radiusToN (nToRadius 3) 1) 3 1e-9 :=
  ⟨by norm_num, by norm_num, C4_roundtrip 3 (by norm_num) (by norm_num)⟩

/-! ### The engine facade (BlackHoleEngine.ts) -/

/-- The engine configuration (`Config` in BlackHoleEngine.ts). -/
structure Config where
  nFaller : ℝ
  nObserver : ℝ

/-- The `BlackHoleEngine` constructor: throws when
`cfg.nObserver >= cfg.nFaller`, otherwise yields the engine (which holds
exactly the configuration). -/
def mkEngine (cfg : Config) : Except String Config :=
  if cfg.nObserver ≥ cfg.nFaller then
    .error "Observer must be further out (lower n)"
  else .ok cfg

/-- The `tauMax` getter. -/
def tauMax (cfg : Config) : ℝ := maxProperTime cfg.nFaller

/-- `nTauToTau`: converts logarithmic time to linear proper time; the
source checks `nTau === Infinity` first, then caps at 0. -/
def nTauToTau (cfg : Config) : XR → ℝ
  | .inf => tauMax cfg
  | .fin nTau => tauMax cfg * (1 - (10 : ℝ) ^ (-(max 0 nTau)))

/-- The record returned by `getState`. -/
structure Snapshot where
  o1n : XR
  o1r : XR
  o1tau : ℝ
  o2n : ℝ
  o2r : ℝ
  o2tau : XR
  t : XR
  atHorizon : Bool

/-- `getState` from BlackHoleEngine.ts. -/
def getState (cfg : Config) (tau : ℝ) : Snapshot :=
  let nF := fallingN tau cfg.nFaller (tauMax cfg)
  let t := coordinateTime nF cfg.nFaller
  let tauObserver := stationaryProperTime t cfg.nObserver
  { o1n := nF, o1r := nToRadiusX nF, o1tau := tau,
    o2n := cfg.nObserver, o2r := nToRadius cfg.nObserver,
    o2tau := tauObserver, t := t, atHorizon := nF.isInf }

/-- The record returned by `getStateByNTau` (it carries the extra
`nTau` field). -/
structure SnapshotNTau where
  o1n : XR
  o1r : XR
  o1tau : ℝ
  o1nTau : XR
  o2n : ℝ
  o2r : ℝ
  o2tau : XR
  t : XR
  atHorizon : Bool

/-- `getStateByNTau` from BlackHoleEngine.ts: with logarithmic time the
position is the linear expression `nFaller + nTau` (JS addition maps the
`Infinity` sentinel to `Infinity`). -/
def getStateByNTau (cfg : Config) (nTau : XR) : SnapshotNTau :=
  let nF : XR := match nTau with
    | .fin x => .fin (cfg.nFaller + x)
    | .inf => .inf
  let t := coordinateTime nF cfg.nFaller
  let tauObserver := stationaryProperTime t cfg.nObserver
  let tau := nTauToTau cfg nTau
  { o1n := nF, o1r := nToRadiusX nF, o1tau := tau, o1nTau := nTau,
    o2n := cfg.nObserver, o2r := nToRadius cfg.nObserver,
    o2tau := tauObserver, t := t, atHorizon := nF.isInf }

/-- The configuration used by the spec's end-to-end scenarios:
`closenessFaller = 0`, `closenessObserver = -1`. -/
def cfgA : Config := { nFaller := 0, nObserver := -1 }

theorem tauMax_pos (cfg : Config) : 0 < tauMax cfg := by
  unfold tauMax maxProperTime
  apply Real.sqrt_pos.mpr
  have h := pow10_pos (-cfg.nFaller)
  have hr : 0 < nToRadius cfg.nFaller := by unfold nToRadius; linarith
  positivity

/-! ### C7: construction validation -/

/-- C7: construction fails (raises the configuration error) if and only
if `closenessObserver ≥ closenessFaller`; with a valid configuration it
succeeds, yielding the engine.  (All query functions of the embedding
are total: the constructor contains the only `throw` in the engine.) -/
theorem C7_construction (cfg : Config) :
    ((∃ e, mkEngine cfg = Except.error e) ↔ cfg.nFaller ≤ cfg.nObserver) ∧
    (cfg.nObserver < cfg.nFaller → mkEngine cfg = Except.ok cfg) := by
  constructor
  · constructor
    · rintro ⟨e, he⟩
      by_contra hlt
      unfold mkEngine at he
      rw [if_neg (by simpa [ge_iff_le] using hlt)] at he
      exact Except.noConfusion he
    · intro hge
      refine ⟨"Observer must be further out (lower n)", ?_⟩
      unfold mkEngine
      rw [if_pos hge]
  · intro hlt
    unfold mkEngine
    rw [if_neg (by simpa [ge_iff_le] using not_le.mpr hlt)]

/-- Witness for C7 at a concrete input. -/
theorem C7_construction_witness :
    (cfgA.nObserver < cfgA.nFaller) ∧ mkEngine cfgA = Except.ok cfgA :=
  ⟨by norm_num [cfgA], (C7_construction cfgA).2 (by norm_num [cfgA])⟩

/-! ### C5: out-of-domain clamping -/

/-- Equality of two `getState` snapshots on every derived field — all
fields except `o1tau`, which echoes the raw query input. -/
def sameDerived (s1 s2 : Snapshot) : Prop :=
  s1.o1n = s2.o1n ∧ s1.o1r = s2.o1r ∧ s1.o2n = s2.o2n ∧ s1.o2r = s2.o2r ∧
  s1.o2tau = s2.o2tau ∧ s1.t = s2.t ∧ s1.atHorizon = s2.atHorizon

/-- C5 counterexample: the snapshots for `τ = τ_max + 1` and `τ = τ_max`
are not equal in all fields — the faller's `tau` field echoes the
unclamped input. -/
theorem C5_counterexample :
    getState cfgA (tauMax cfgA + 1) ≠ getState cfgA (tauMax cfgA) := by
  intro h
  have := congrArg Snapshot.o1tau h
  simp only [getState] at this
  linarith

/-- C5 amended: out-of-domain proper times are clamped in every derived
field: for `τ > τ_max` the snapshot agrees with the one at `τ_max`, and
for `τ < 0` with the one at `0`, in all fields except `object1.tau`
(which echoes the raw input). -/
theorem C5_clamping_amended (cfg : Config) (hv : cfg.nObserver < cfg.nFaller)
    (tau : ℝ) :
    (tauMax cfg < tau →
      sameDerived (getState cfg tau) (getState cfg (tauMax cfg))) ∧
    (tau < 0 → sameDerived (getState cfg tau) (getState cfg 0)) := by
  have htM := tauMax_pos cfg
  constructor
  · intro htau
    have h1 : fallingN tau cfg.nFaller (tauMax cfg) = XR.inf := by
      unfold fallingN
      rw [if_neg (by linarith), if_pos (by linarith)]
    have h2 : fallingN (tauMax cfg) cfg.nFaller (tauMax cfg) = XR.inf := by
      unfold fallingN
      rw [if_neg (by linarith), if_pos (by linarith)]
    simp [getState, sameDerived, h1, h2]
  · intro htau
    have h1 : fallingN tau cfg.nFaller (tauMax cfg) = XR.fin cfg.nFaller := by
      unfold fallingN
      rw [if_pos (by linarith)]
    have h2 : fallingN 0 cfg.nFaller (tauMax cfg) = XR.fin cfg.nFaller := by
      unfold fallingN
      rw [if_pos le_rfl]
    simp [getState, sameDerived, h1, h2]

/-- Witness for the amended C5 at a concrete input. -/
theorem C5_clamping_amended_witness :
    (cfgA.nObserver < cfgA.nFaller) ∧ (tauMax cfgA < tauMax cfgA + 1) ∧
    sameDerived (getState cfgA (tauMax cfgA + 1)) (getState cfgA (tauMax cfgA)) :=
  ⟨by norm_num [cfgA], lt_add_one _,
    (C5_clamping_amended cfgA (by norm_num [cfgA]) (tauMax cfgA + 1)).1
      (lt_add_one _)⟩

/-! ### C10: the log-time query path agrees with the linear path -/

/-- C10: for a valid configuration and finite `nτ ≥ 0`, the faller
closeness reported by `getStateByNTau(nτ)` is `closenessFaller + nτ`,
and it equals the faller closeness reported by
`getState(nTauToTau(nτ))`. -/
theorem C10_log_linear (cfg : Config) (hv : cfg.nObserver < cfg.nFaller)
    (nTau : ℝ) (h : 0 ≤ nTau) :
    (getStateByNTau cfg (XR.fin nTau)).o1n = XR.fin (cfg.nFaller + nTau) ∧
    (getState cfg (nTauToTau cfg (XR.fin nTau))).o1n
      = XR.fin (cfg.nFaller + nTau) := by
  have htM := tauMax_pos cfg
  have hmax : max 0 nTau = nTau := max_eq_right h
  constructor
  · simp only [getStateByNTau]
  · simp only [getState, nTauToTau, hmax]
    rcases eq_or_lt_of_le h with hz | hpos
    · have h0 : tauMax cfg * (1 - (10 : ℝ) ^ (-nTau)) = 0 := by
        rw [← hz]
        norm_num [Real.rpow_zero]
      rw [h0]
      unfold fallingN
      rw [if_pos le_rfl, ← hz, add_zero]
    · have hf1 : (10 : ℝ) ^ (-nTau) < 1 :=
        Real.rpow_lt_one_of_one_lt_of_neg (by norm_num) (by linarith)
      have hf0 : 0 < (10 : ℝ) ^ (-nTau) := pow10_pos (-nTau)
      set tau := tauMax cfg * (1 - (10 : ℝ) ^ (-nTau)) with htau
      have htau0 : 0 < tau := by
        apply mul_pos htM; linarith
      have htauM : tau < tauMax cfg := by
        rw [htau]
        nlinarith
      unfold fallingN
      rw [if_neg (by linarith), if_neg (by linarith)]
      have hfrac : 1 - tau / tauMax cfg = (10 : ℝ) ^ (-nTau) := by
        rw [htau]
        field_simp
      rw [hfrac, log10_pow10]
      norm_num [add_comm]

/-- Witness for C10 at a concrete input. -/
theorem C10_log_linear_witness :
    (cfgA.nObserver < cfgA.nFaller) ∧ ((0 : ℝ) ≤ 1) ∧
    (getStateByNTau cfgA (XR.fin 1)).o1n = XR.fin (cfgA.nFaller + 1) :=
  ⟨by norm_num [cfgA], by norm_num,
    (C10_log_linear cfgA (by norm_num [cfgA]) 1 (by norm_num)).1⟩

/-! ### The intercept solver (getPhotonIntersectDelta) -/

/-- `observerTauToCoordinateTime` from BlackHoleEngine.ts. -/
def observerTauToCoordinateTime (cfg : Config) (tauObserver : ℝ) : ℝ :=
  tauObserver / Real.sqrt (1 - 1 / nToRadius cfg.nObserver)

/-- `fallerNAtCoordinateTime` from BlackHoleEngine.ts:
`n = log10(t + 10^nStart)` guarded against non-positive argument. -/
def fallerNAtCoordinateTime (cfg : Config) (t : ℝ) : ℝ :=
  if t + (10 : ℝ) ^ cfg.nFaller ≤ 0 then cfg.nFaller
  else log10 (t + (10 : ℝ) ^ cfg.nFaller)

/-- The solver's loop condition
`!isFinite(nPhoton) || nPhoton >= nFaller` at candidate time `t`. -/
def hit (cfg : Config) (tEmit t : ℝ) : Prop :=
  match photonNInward cfg.nObserver tEmit t with
  | .inf => True
  | .fin p => fallerNAtCoordinateTime cfg t ≤ p

open Classical

/-- The solver's bracket-expansion loop: starting from the candidate
upper bound, double until the photon has reached or passed the faller;
the fuel models the 100-attempt cap, and a bound past `1e100` aborts
with the `Infinity` sentinel (`none`). -/
def bracket (cfg : Config) (tEmit : ℝ) : ℕ → ℝ → Option ℝ
  | 0, _ => none
  | fuel + 1, tHigh =>
    if hit cfg tEmit tHigh then some tHigh
    else if tHigh * 2 > 1e100 then none
    else bracket cfg tEmit fuel (tHigh * 2)

/-- The solver's bisection loop (60 iterations in the source). -/
def bisect (cfg : Config) (tEmit : ℝ) : ℕ → ℝ → ℝ → ℝ × ℝ
  | 0, tLow, tHigh => (tLow, tHigh)
  | fuel + 1, tLow, tHigh =>
    if hit cfg tEmit ((tLow + tHigh) / 2) then
      bisect cfg tEmit fuel tLow ((tLow + tHigh) / 2)
    else
      bisect cfg tEmit fuel ((tLow + tHigh) / 2) tHigh

/-- `getPhotonIntersectDelta` from BlackHoleEngine.ts: bracket expansion
followed by 60 bisection steps; the result converts the coordinate-time
delta `tHigh - tEmit` back to observer proper time. -/
def getPhotonIntersectDelta (cfg : Config) (tauEmit : ℝ) : XR :=
  let tEmit := observerTauToCoordinateTime cfg tauEmit
  match bracket cfg tEmit 100 (tEmit * 2 + 10) with
  | none => .inf
  | some tHigh =>
    let p := bisect cfg tEmit 60 tEmit tHigh
    .fin ((p.2 - tEmit) * Real.sqrt (1 - 1 / nToRadius cfg.nObserver))

theorem bracket_succ (cfg : Config) (tEmit : ℝ) (fuel : ℕ) (tHigh : ℝ) :
    bracket cfg tEmit (fuel + 1) tHigh
      = if hit cfg tEmit tHigh then some tHigh
        else if tHigh * 2 > 1e100 then none
        else bracket cfg tEmit fuel (tHigh * 2) := rfl

theorem bisect_succ (cfg : Config) (tEmit : ℝ) (fuel : ℕ) (tLow tHigh : ℝ) :
    bisect cfg tEmit (fuel + 1) tLow tHigh
      = if hit cfg tEmit ((tLow + tHigh) / 2) then
          bisect cfg tEmit fuel tLow ((tLow + tHigh) / 2)
        else
          bisect cfg tEmit fuel ((tLow + tHigh) / 2) tHigh := rfl

/-- Each bisection step halves the bracket, so a 60-iteration run divides
the initial width by exactly `2^60`. -/
theorem bisect_width (cfg : Config) (tEmit : ℝ) :
    ∀ (fuel : ℕ) (tLow tHigh : ℝ),
      (bisect cfg tEmit fuel tLow tHigh).2 - (bisect cfg tEmit fuel tLow tHigh).1
        = (tHigh - tLow) / 2 ^ fuel := by
  intro fuel
  induction fuel with
  | zero => intro tLow tHigh; simp [bisect]
  | succ f ih =>
    intro tLow tHigh
    rw [bisect_succ]
    by_cases h : hit cfg tEmit ((tLow + tHigh) / 2)
    · rw [if_pos h, ih]
      rw [pow_succ]
      ring
    · rw [if_neg h, ih]
      rw [pow_succ]
      ring

/-- The bisection keeps its invariant: the bracket shrinks inside the
initial one and its lower end never satisfies the hit condition while
its upper end always does. -/
theorem bisect_invariant (cfg : Config) (tEmit : ℝ) :
    ∀ (fuel : ℕ) (tLow tHigh : ℝ), tLow ≤ tHigh →
      ¬ hit cfg tEmit tLow → hit cfg tEmit tHigh →
      tLow ≤ (bisect cfg tEmit fuel tLow tHigh).1 ∧
      (bisect cfg tEmit fuel tLow tHigh).2 ≤ tHigh ∧
      (bisect cfg tEmit fuel tLow tHigh).1 ≤ (bisect cfg tEmit fuel tLow tHigh).2 ∧
      ¬ hit cfg tEmit (bisect cfg tEmit fuel tLow tHigh).1 ∧
      hit cfg tEmit (bisect cfg tEmit fuel tLow tHigh).2 := by
  intro fuel
  induction fuel with
  | zero =>
    intro tLow tHigh hle hlo hhi
    exact ⟨le_rfl, le_rfl, hle, hlo, hhi⟩
  | succ f ih =>
    intro tLow tHigh hle hlo hhi
    rw [bisect_succ]
    by_cases h : hit cfg tEmit ((tLow + tHigh) / 2)
    · rw [if_pos h]
      have hmid : tLow ≤ (tLow + tHigh) / 2 := by linarith
      have hmid2 : (tLow + tHigh) / 2 ≤ tHigh := by linarith
      obtain ⟨a1, a2, a3, a4, a5⟩ := ih tLow ((tLow + tHigh) / 2) hmid hlo h
      exact ⟨a1, le_trans a2 hmid2, a3, a4, a5⟩
    · rw [if_neg h]
      have hmid : tLow ≤ (tLow + tHigh) / 2 := by linarith
      have hmid2 : (tLow + tHigh) / 2 ≤ tHigh := by linarith
      obtain ⟨a1, a2, a3, a4, a5⟩ := ih ((tLow + tHigh) / 2) tHigh hmid2 h hhi
      exact ⟨le_trans hmid a1, a2, a3, a4, a5⟩

/-- If the bracket expansion succeeds, the returned bound is the initial
candidate doubled fewer than `fuel` times. -/
theorem bracket_some_doublings (cfg : Config) (tEmit : ℝ) :
    ∀ (fuel : ℕ) (t r : ℝ), bracket cfg tEmit fuel t = some r →
      ∃ k, k < fuel ∧ r = t * 2 ^ k := by
  intro fuel
  induction fuel with
  | zero => intro t r h; simp [bracket] at h
  | succ f ih =>
    intro t r h
    rw [bracket_succ] at h
    by_cases hh : hit cfg tEmit t
    · rw [if_pos hh] at h
      refine ⟨0, Nat.succ_pos f, ?_⟩
      simpa using h.symm
    · rw [if_neg hh] at h
      by_cases hcap : t * 2 > 1e100
      · rw [if_pos hcap] at h
        exact Option.noConfusion h
      · rw [if_neg hcap] at h
        obtain ⟨k, hk, hr⟩ := ih (t * 2) r h
        refine ⟨k + 1, by omega, ?_⟩
        rw [hr, pow_succ]
        ring

/-- C8: the solver terminates for every input — the bracket-expansion
loop performs at most 100 doublings (exhausting its fuel, or aborting
past `1e100`, returns the `+∞` sentinel), and the bisection always runs
a fixed 60 iterations, shrinking the bracket by exactly `2^60`. -/
theorem C8_termination (cfg : Config) (tauEmit : ℝ) :
    (getPhotonIntersectDelta cfg tauEmit = XR.inf ∨
      ∃ d, getPhotonIntersectDelta cfg tauEmit = XR.fin d) ∧
    (∀ t : ℝ, bracket cfg (observerTauToCoordinateTime cfg tauEmit) 0 t = none) ∧
    (∀ (fuel : ℕ) (t r : ℝ),
      bracket cfg (observerTauToCoordinateTime cfg tauEmit) fuel t = some r →
      ∃ k, k < fuel ∧ r = t * 2 ^ k) ∧
    (∀ (fuel : ℕ) (t : ℝ),
      ¬ hit cfg (observerTauToCoordinateTime cfg tauEmit) t → t * 2 > 1e100 →
      bracket cfg (observerTauToCoordinateTime cfg tauEmit) (fuel + 1) t = none) ∧
    (∀ tLow tHigh : ℝ,
      (bisect cfg (observerTauToCoordinateTime cfg tauEmit) 60 tLow tHigh).2
        - (bisect cfg (observerTauToCoordinateTime cfg tauEmit) 60 tLow tHigh).1
        = (tHigh - tLow) / 2 ^ 60) := by
  refine ⟨?_, ?_, ?_, ?_, ?_⟩
  · rcases hb : bracket cfg (observerTauToCoordinateTime cfg tauEmit) 100
        (observerTauToCoordinateTime cfg tauEmit * 2 + 10) with _ | tHigh
    · left
      simp only [getPhotonIntersectDelta]
      rw [hb]
    · right
      refine ⟨((bisect cfg (observerTauToCoordinateTime cfg tauEmit) 60
          (observerTauToCoordinateTime cfg tauEmit) tHigh).2
          - observerTauToCoordinateTime cfg tauEmit)
          * Real.sqrt (1 - 1 / nToRadius cfg.nObserver), ?_⟩
      simp only [getPhotonIntersectDelta]
      rw [hb]
  · intro t; rfl
  · exact bracket_some_doublings cfg _
  · intro fuel t hh hcap
    rw [bracket_succ, if_neg hh, if_pos hcap]
  · exact bisect_width cfg _ 60

/-! ### Evaluating the solver on the scenario configuration -/

theorem cfgA_nObserver : cfgA.nObserver = -1 := rfl

theorem cfgA_nFaller : cfgA.nFaller = 0 := rfl

theorem nToRadius_cfgA_observer : nToRadius cfgA.nObserver = 11 := by
  rw [cfgA_nObserver]
  unfold nToRadius
  rw [neg_neg, Real.rpow_one]
  norm_num

theorem observerTau_cfgA (tauObserver : ℝ) :
    observerTauToCoordinateTime cfgA tauObserver
      = tauObserver / Real.sqrt (1 - 1 / 11) := by
  unfold observerTauToCoordinateTime
  rw [nToRadius_cfgA_observer]

theorem observerTau_cfgA_zero : observerTauToCoordinateTime cfgA 0 = 0 := by
  rw [observerTau_cfgA]
  exact zero_div _

theorem fallerA (t : ℝ) (ht : 0 ≤ t) :
    fallerNAtCoordinateTime cfgA t = log10 (t + 1) := by
  unfold fallerNAtCoordinateTime
  rw [cfgA_nFaller, Real.rpow_zero]
  rw [if_neg (by linarith)]

/-- The solver's hit condition for the scenario configuration reduces to
a polynomial inequality in `t` and `ln 10`. -/
theorem hitA_iff (tEmit t : ℝ) (htE : 0 ≤ tEmit) (ht : 0 ≤ t) :
    hit cfgA tEmit t ↔
      tEmit < t ∧ (10 - (t - tEmit) / Real.log 10) * (t + 1) ≤ 1 := by
  have hfall := fallerA t ht
  have hlog_nonneg : 0 ≤ log10 (t + 1) := log10_nonneg (by linarith)
  have ht1 : (0 : ℝ) < t + 1 := by linarith
  by_cases hdt : t - tEmit ≤ 0
  · have hp : photonNInward cfgA.nObserver tEmit t = XR.fin (-1) := by
      rw [cfgA_nObserver]
      unfold photonNInward
      rw [if_pos hdt]
    unfold hit
    rw [hp, hfall]
    show log10 (t + 1) ≤ -1 ↔ _
    constructor
    · intro h; linarith
    · rintro ⟨h, -⟩; linarith
  · push_neg at hdt
    have hpow : (10 : ℝ) ^ (-cfgA.nObserver) = 10 := by
      rw [cfgA_nObserver, neg_neg, Real.rpow_one]
    by_cases hr : (10 : ℝ) - (t - tEmit) / Real.log 10 ≤ 0
    · have hp : photonNInward cfgA.nObserver tEmit t = XR.inf := by
        unfold photonNInward
        rw [if_neg (by linarith), hpow, if_pos hr]
      unfold hit
      rw [hp]
      show True ↔ _
      constructor
      · rintro -
        refine ⟨by linarith, ?_⟩
        have := mul_nonpos_of_nonpos_of_nonneg hr (le_of_lt ht1)
        linarith
      · rintro -
        trivial
    · push_neg at hr
      have hp : photonNInward cfgA.nObserver tEmit t
          = XR.fin (-(log10 ((10 : ℝ) - (t - tEmit) / Real.log 10))) := by
        unfold photonNInward
        rw [if_neg (by linarith), hpow, if_neg (by linarith)]
      unfold hit
      rw [hp, hfall]
      show log10 (t + 1) ≤ -(log10 (10 - (t - tEmit) / Real.log 10)) ↔ _
      have hmul : log10 ((10 - (t - tEmit) / Real.log 10) * (t + 1))
          = log10 (10 - (t - tEmit) / Real.log 10) + log10 (t + 1) :=
        log10_mul (ne_of_gt hr) (ne_of_gt ht1)
      have hQpos : 0 < (10 - (t - tEmit) / Real.log 10) * (t + 1) :=
        mul_pos hr ht1
      constructor
      · intro h
        refine ⟨by linarith, ?_⟩
        apply (log10_nonpos_iff hQpos).mp
        rw [hmul]
        linarith
      · rintro ⟨-, hQ⟩
        have := (log10_nonpos_iff hQpos).mpr hQ
        rw [hmul] at this
        linarith

theorem not_hitA_self (tEmit : ℝ) (htE : 0 ≤ tEmit) : ¬ hit cfgA tEmit tEmit := by
  rw [hitA_iff tEmit tEmit htE htE]
  rintro ⟨h, -⟩
  exact lt_irrefl _ h

theorem not_hitA_ten : ¬ hit cfgA 0 10 := by
  rw [hitA_iff 0 10 le_rfl (by norm_num)]
  rintro ⟨-, hc⟩
  have hL := log_ten_bounds
  have hL0 := log_ten_pos
  have hdiv : (10 : ℝ) / Real.log 10 < 5 := by
    rw [div_lt_iff₀ hL0]
    nlinarith [hL.1]
  have : (10 : ℝ) - (10 - 0) / Real.log 10 > 5 := by
    have : ((10 : ℝ) - 0) / Real.log 10 = 10 / Real.log 10 := by norm_num
    rw [this]
    linarith
  nlinarith [this]

theorem not_hitA_twenty : ¬ hit cfgA 0 20 := by
  rw [hitA_iff 0 20 le_rfl (by norm_num)]
  rintro ⟨-, hc⟩
  have hL := log_ten_bounds
  have hL0 := log_ten_pos
  have hdiv : ((20 : ℝ) - 0) / Real.log 10 < 9.1 := by
    rw [div_lt_iff₀ hL0]
    nlinarith [hL.1]
  nlinarith [hdiv, hc]

theorem hitA_forty : hit cfgA 0 40 := by
  rw [hitA_iff 0 40 le_rfl (by norm_num)]
  refine ⟨by norm_num, ?_⟩
  have hL := log_ten_bounds
  have hL0 := log_ten_pos
  have hdiv : ((40 : ℝ) - 0) / Real.log 10 > 16 := by
    rw [gt_iff_lt, lt_div_iff₀ hL0]
    nlinarith [hL.2]
  nlinarith [hdiv]

/-- The bracket expansion for emission at observer proper time 0:
the initial candidate 10 doubles twice and stops at 40. -/
theorem bracketA_zero : bracket cfgA 0 100 10 = some 40 := by
  rw [show (100 : ℕ) = 99 + 1 from rfl, bracket_succ,
    if_neg not_hitA_ten, if_neg (by norm_num)]
  rw [show (10 : ℝ) * 2 = 20 by norm_num]
  rw [show (99 : ℕ) = 98 + 1 from rfl, bracket_succ,
    if_neg not_hitA_twenty, if_neg (by norm_num)]
  rw [show (20 : ℝ) * 2 = 40 by norm_num]
  rw [show (98 : ℕ) = 97 + 1 from rfl, bracket_succ, if_pos hitA_forty]

/-- The intercept delta for emission at observer proper time 0, in terms
of the bisection's upper bound. -/
theorem deltaA_eq : getPhotonIntersectDelta cfgA 0
    = XR.fin ((bisect cfgA 0 60 0 40).2 * Real.sqrt (1 - 1 / 11)) := by
  simp only [getPhotonIntersectDelta, observerTau_cfgA_zero]
  rw [show (0 : ℝ) * 2 + 10 = 10 by norm_num, bracketA_zero,
    nToRadius_cfgA_observer]
  norm_num

/-- After 60 bisection steps on the bracket `[0, 40]`, the returned upper
bound is positive, the photon is still outside the horizon there, and the
photon/faller closeness gap is (much) smaller than `1e-8`. -/
theorem bisectA_bound :
    0 < (bisect cfgA 0 60 0 40).2 ∧
    0 < 10 - (bisect cfgA 0 60 0 40).2 / Real.log 10 ∧
    |(-(log10 (10 - (bisect cfgA 0 60 0 40).2 / Real.log 10)))
      - log10 ((bisect cfgA 0 60 0 40).2 + 1)| ≤ 1e-8 := by
  obtain ⟨ha0, hb40, hab, hna, hhb⟩ :=
    bisect_invariant cfgA 0 60 0 40 (by norm_num)
      (not_hitA_self 0 le_rfl) hitA_forty
  set a := (bisect cfgA 0 60 0 40).1 with ha_def
  set b := (bisect cfgA 0 60 0 40).2 with hb_def
  have hwidth := bisect_width cfgA 0 60 0 40
  rw [← ha_def, ← hb_def] at hwidth
  set L := Real.log 10 with hL_def
  have hL := log_ten_bounds
  have hL0 := log_ten_pos
  rw [← hL_def] at hL hL0
  have hb0 : 0 ≤ b := le_trans ha0 hab
  obtain ⟨hbpos, hQb_le⟩ := (hitA_iff 0 b le_rfl hb0).mp hhb
  rw [sub_zero] at hQb_le
  have hQa_gt : 1 < (10 - a / L) * (a + 1) := by
    rcases eq_or_lt_of_le ha0 with h0 | hpos
    · rw [← h0]
      norm_num
    · rw [hitA_iff 0 a le_rfl (le_of_lt hpos)] at hna
      push_neg at hna
      have := hna hpos
      rw [sub_zero] at this
      exact this
  have hw : b - a = 40 / 2 ^ 60 := by
    rw [hwidth]; norm_num
  have hδ : (0 : ℝ) ≤ b - a := by linarith
  have hδsmall : b - a ≤ 1e-15 := by
    rw [hw]; norm_num
  have hsum : (1 + a + b) / L < 40 := by
    rw [div_lt_iff₀ hL0]
    nlinarith [hL.1]
  have hsum0 : 0 ≤ (1 + a + b) / L :=
    div_nonneg (by linarith) (le_of_lt hL0)
  have hQident : (10 - b / L) * (b + 1) - (10 - a / L) * (a + 1)
      = (b - a) * (10 - (1 + a + b) / L) := by ring
  have hQb_ge : (10 - b / L) * (b + 1) ≥ 1 - 5e-14 := by
    nlinarith [hQident, hQa_gt, hδ, hδsmall, hsum, hsum0,
      mul_nonneg hδ (by linarith : (0 : ℝ) ≤ 40 - (1 + a + b) / L)]
  set Q := (10 - b / L) * (b + 1) with hQdef
  have hQpos : 0 < Q := by
    rw [hQdef] at hQb_ge ⊢
    linarith
  have hb1 : (0 : ℝ) < b + 1 := by linarith
  have hrb : 0 < 10 - b / L := by
    nlinarith [hQpos, hb1]
  have hlogQ_nonpos : Real.log Q ≤ 0 := Real.log_nonpos (le_of_lt hQpos) hQb_le
  have hneg : -Real.log Q ≤ (1 - Q) / Q := by
    have h1 := Real.log_le_sub_one_of_pos (inv_pos.mpr hQpos)
    rw [Real.log_inv] at h1
    have h2 : Q⁻¹ - 1 = (1 - Q) / Q := by
      field_simp
    linarith [h2 ▸ h1]
  have hfrac : (1 - Q) / Q ≤ 2 * (1 - Q) := by
    rw [div_le_iff₀ hQpos]
    nlinarith [hQb_ge, hQb_le]
  have hD_le : -(log10 Q) ≤ 1e-8 := by
    have hexp : -(log10 Q) = (-Real.log Q) / L := by
      unfold log10 Real.logb
      rw [← hL_def]
      ring
    rw [hexp, div_le_iff₀ hL0]
    nlinarith [hneg, hfrac, hQb_ge, hL.1, hlogQ_nonpos]
  have hD_nonneg : 0 ≤ -(log10 Q) := by
    have : log10 Q ≤ 0 := (log10_nonpos_iff hQpos).mpr hQb_le
    linarith
  have hmul : log10 Q = log10 (10 - b / L) + log10 (b + 1) := by
    rw [hQdef]
    exact log10_mul (ne_of_gt hrb) (ne_of_gt hb1)
  refine ⟨hbpos, hrb, ?_⟩
  have hgap : (-(log10 (10 - b / L))) - log10 (b + 1) = -(log10 Q) := by
    rw [hmul]; ring
  rw [hgap]
  rw [abs_le]
  constructor <;> linarith

/-- C1: for `closenessFaller = 0`, `closenessObserver = -1`, the
intercept solver at `τ_emit = 0` returns a finite strictly positive
observer-proper-time delta, and at the corresponding coordinate time the
faller's closeness and the inbound photon's closeness agree within
`1e-8`. -/
theorem C1_intercept_correct :
    XR.finPos (getPhotonIntersectDelta cfgA 0) ∧
    XR.within
      (photonNInward cfgA.nObserver 0
        ((getPhotonIntersectDelta cfgA 0).val / Real.sqrt (1 - 1 / 11)))
      (fallerNAtCoordinateTime cfgA
        ((getPhotonIntersectDelta cfgA 0).val / Real.sqrt (1 - 1 / 11)))
      1e-8 := by
  obtain ⟨hbpos, hrb, habs⟩ := bisectA_bound
  have hs : (0 : ℝ) < Real.sqrt (1 - 1 / 11) :=
    Real.sqrt_pos.mpr (by norm_num)
  rw [deltaA_eq]
  constructor
  · show 0 < (bisect cfgA 0 60 0 40).2 * Real.sqrt (1 - 1 / 11)
    exact mul_pos hbpos hs
  · simp only [XR.val]
    rw [mul_div_cancel_right₀ _ (ne_of_gt hs)]
    have hp : photonNInward cfgA.nObserver 0 (bisect cfgA 0 60 0 40).2
        = XR.fin (-(log10 (10 - (bisect cfgA 0 60 0 40).2 / Real.log 10))) := by
      rw [cfgA_nObserver]
      unfold photonNInward
      simp only [sub_zero]
      rw [neg_neg, Real.rpow_one]
      rw [if_neg (by linarith), if_neg (by linarith)]
    rw [hp, fallerA _ (le_of_lt hbpos)]
    exact habs

/-! ### C6: emission arbitrarily close to the faller horizon time -/

theorem tauMax_cfgA : tauMax cfgA = Real.sqrt 8 := by
  unfold tauMax maxProperTime
  rw [cfgA_nFaller]
  have h2 : nToRadius 0 = 2 := by
    unfold nToRadius
    rw [neg_zero, Real.rpow_zero]
    norm_num
  rw [h2]
  norm_num

theorem sqrt_eight_bounds : 2.82 < Real.sqrt 8 ∧ Real.sqrt 8 < 2.83 :=
  ⟨(Real.lt_sqrt (by norm_num)).mpr (by norm_num),
    (Real.sqrt_lt' (by norm_num)).mpr (by norm_num)⟩

theorem sqrt_dilation_bounds :
    0.95 < Real.sqrt (1 - 1 / 11) ∧ Real.sqrt (1 - 1 / 11) < 0.96 :=
  ⟨(Real.lt_sqrt (by norm_num)).mpr (by norm_num),
    (Real.sqrt_lt' (by norm_num)).mpr (by norm_num)⟩

/-- Even for an emission proper time within `1e-50` of `τ_max`, the
solver returns a finite strictly positive intercept delta: the inbound
photon crosses the horizon in finite coordinate time while the faller
does not, so the bracket succeeds after two doublings. -/
theorem interceptDelta_late_finPos :
    XR.finPos (getPhotonIntersectDelta cfgA (tauMax cfgA - 1e-50)) := by
  have hs_lb := sqrt_dilation_bounds.1
  have hs_ub := sqrt_dilation_bounds.2
  have hs0 : (0 : ℝ) < Real.sqrt (1 - 1 / 11) := by linarith
  have h8lb := sqrt_eight_bounds.1
  have h8ub := sqrt_eight_bounds.2
  have htauE_lb : 2.81 < tauMax cfgA - 1e-50 := by
    rw [tauMax_cfgA]
    have : (1e-50 : ℝ) ≤ 0.01 := by norm_num
    linarith
  have htauE_ub : tauMax cfgA - 1e-50 < 2.83 := by
    rw [tauMax_cfgA]
    have : (0 : ℝ) < 1e-50 := by norm_num
    linarith
  have hTE : observerTauToCoordinateTime cfgA (tauMax cfgA - 1e-50)
      = (tauMax cfgA - 1e-50) / Real.sqrt (1 - 1 / 11) :=
    observerTau_cfgA _
  set tE := (tauMax cfgA - 1e-50) / Real.sqrt (1 - 1 / 11) with htE_def
  have htE_lb : 2.9 < tE := by
    rw [htE_def, lt_div_iff₀ hs0]
    nlinarith
  have htE_ub : tE < 3 := by
    rw [htE_def, div_lt_iff₀ hs0]
    nlinarith
  have htE0 : (0 : ℝ) ≤ tE := by linarith
  have hL := log_ten_bounds
  have hL0 := log_ten_pos
  have hn1 : ¬ hit cfgA tE (tE * 2 + 10) := by
    rw [hitA_iff tE (tE * 2 + 10) htE0 (by linarith)]
    rintro ⟨-, hc⟩
    have hdt : tE * 2 + 10 - tE = tE + 10 := by ring
    rw [hdt] at hc
    have hdiv : (tE + 10) / Real.log 10 < 6 := by
      rw [div_lt_iff₀ hL0]
      nlinarith [hL.1]
    nlinarith [hc, hdiv]
  have h2 : hit cfgA tE ((tE * 2 + 10) * 2) := by
    rw [hitA_iff tE ((tE * 2 + 10) * 2) htE0 (by linarith)]
    refine ⟨by linarith, ?_⟩
    have hdt : (tE * 2 + 10) * 2 - tE = 3 * tE + 20 := by ring
    rw [hdt]
    have hdiv : 10 < (3 * tE + 20) / Real.log 10 := by
      rw [lt_div_iff₀ hL0]
      nlinarith [hL.2]
    have hneg : 10 - (3 * tE + 20) / Real.log 10 < 0 := by linarith
    nlinarith [hneg]
  have hbr : bracket cfgA tE 100 (tE * 2 + 10) = some ((tE * 2 + 10) * 2) := by
    rw [show (100 : ℕ) = 99 + 1 from rfl, bracket_succ, if_neg hn1,
      if_neg (by nlinarith)]
    rw [show (99 : ℕ) = 98 + 1 from rfl, bracket_succ, if_pos h2]
  obtain ⟨ha, hb, hab, hna, hhb⟩ :=
    bisect_invariant cfgA tE 60 tE ((tE * 2 + 10) * 2) (by linarith)
      (not_hitA_self tE htE0) h2
  have hb0 : (0 : ℝ) ≤ (bisect cfgA tE 60 tE ((tE * 2 + 10) * 2)).2 := by
    linarith
  have hbgt : tE < (bisect cfgA tE 60 tE ((tE * 2 + 10) * 2)).2 :=
    ((hitA_iff tE _ htE0 hb0).mp hhb).1
  simp only [getPhotonIntersectDelta, hTE, ← htE_def]
  rw [hbr, nToRadius_cfgA_observer]
  show 0 < ((bisect cfgA tE 60 tE ((tE * 2 + 10) * 2)).2 - tE)
      * Real.sqrt (1 - 1 / 11)
  exact mul_pos (by linarith) hs0

/-- C6 counterexample: emission within `10^-50` of `τ_max` does *not*
make the solver return the `+∞` sentinel. -/
theorem C6_counterexample :
    getPhotonIntersectDelta cfgA (tauMax cfgA - 1e-50) ≠ XR.inf := by
  intro h
  have hfin := interceptDelta_late_finPos
  rw [h] at hfin
  exact hfin

/-- C6 amended: for the valid configuration `closenessFaller = 0`,
`closenessObserver = -1`, an emission proper time within `10^-50` of
`τ_max` still yields a finite, strictly positive intercept delta — the
inbound photon always catches the faller in this model; the `+∞`
sentinel arises only from the bracket caps (fuel or the `1e100` bound),
not from late emission. -/
theorem C6_late_emission_amended :
    XR.finPos (getPhotonIntersectDelta cfgA (tauMax cfgA - 1e-50)) :=
  interceptDelta_late_finPos

/-- Witness for C8 at a concrete input: the bracket for the scenario
configuration returns 40 after two doublings of the initial candidate
10, and the theorem recovers `40 = 10 * 2^k` with `k < 100`. -/
theorem C8_termination_witness :
    bracket cfgA (observerTauToCoordinateTime cfgA 0) 100 10 = some 40 ∧
    ∃ k, k < 100 ∧ (40 : ℝ) = 10 * 2 ^ k := by
  have hb : bracket cfgA (observerTauToCoordinateTime cfgA 0) 100 10 = some 40 := by
    rw [observerTau_cfgA_zero]
    exact bracketA_zero
  exact ⟨hb, (C8_termination cfgA 0).2.2.1 100 10 40 hb⟩

end FrozenStars
